import Mathlib

/-!
Verification of the client-side aggregation and ranking layer of the
Logiops360 dashboard (TransportDashboard.tsx and the ml-cards components).

JavaScript numbers are embedded as rationals (`ℚ`), nullable fields as
`Option`, and the JS falsy-defaulting operator `x || d` as explicit
defaulting functions.  JS objects used as string-keyed accumulators are
embedded as association lists together with the ECMAScript own-property
enumeration order (canonical array-index keys first, in ascending numeric
order, then the remaining string keys in insertion order), which is the
order `Object.entries` produces.  `Array.prototype.sort` with a numeric
comparator is embedded as a stable insertion sort for the comparator's
preorder, which ECMAScript guarantees since ES2019.
-/

namespace Logiops

/-! ## JS string and number primitives -/

/-- ASCII uppercasing of a string, as `String.prototype.toUpperCase` acts on
the ASCII zone strings used by the dashboard. -/
def upper (s : String) : String :=
  String.mk (s.data.map Char.toUpper)

/-- The JS expression `o || dflt` on a nullable string: `null`, `undefined`
and the empty string are falsy and yield the default. -/
def jsOr (o : Option String) (dflt : String) : String :=
  match o with
  | none => dflt
  | some s => if s = "" then dflt else s

/-- The JS expression `o || 0` on a nullable number. -/
def jsNum (o : Option ℚ) : ℚ :=
  o.getD 0

/-- Numeric value of a list of decimal digit characters. -/
def natOfDigits (cs : List Char) : ℕ :=
  cs.foldl (fun a c => a * 10 + (c.toNat - 48)) 0

/-- Whether a string is a canonical array-index property key in the sense of
ECMAScript own-property enumeration: a decimal numeral without leading zeros
whose value is below 2^32 - 1. -/
def isArrayIndex (s : String) : Bool :=
  match s.data with
  | [] => false
  | c :: rest =>
      (c :: rest).all Char.isDigit &&
      (c != '0' || rest.isEmpty) &&
      natOfDigits (c :: rest) < 4294967295

/-! ## Move records and the Top-5 IN aggregation (`top5IN`)

Embedding of the `slotting.sample` move records and of `top5IN` from
`TransportDashboard.tsx` (and its duplicate in the unnamed dashboard file):

    const agg: Record<string, number> = {};
    for (const s of slotting.sample) {
      if ((s.to_zone || "").toUpperCase() === "A") {
        const key = s.referenceproduit || "?";
        agg[key] = (agg[key] || 0) + (s.move_qty || 0);
      }
    }
    return Object.entries(agg)
      .map(([ref, qty]) => ({ ref, qty }))
      .sort((a, b) => b.qty - a.qty)
      .slice(0, 5);
-/

/-- A move record from the slotting sample.  All fields are optional at
runtime; the code defends against missing values with `||` defaulting. -/
structure SlottingMove where
  referenceproduit : Option String
  from_zone : Option String
  to_zone : Option String
  move_qty : Option ℚ
  deriving DecidableEq

/-- The loop guard `(s.to_zone || "").toUpperCase() === "A"`. -/
def inZoneA (s : SlottingMove) : Bool :=
  upper (jsOr s.to_zone "") == "A"

/-- The grouping key `s.referenceproduit || "?"`. -/
def keyOf (s : SlottingMove) : String :=
  jsOr s.referenceproduit "?"

/-- The moves that pass the IN-direction zone filter. -/
def filteredIN (sample : List SlottingMove) : List SlottingMove :=
  sample.filter inZoneA

/-- The keys of the filtered moves, in input order. -/
def klIN (sample : List SlottingMove) : List String :=
  (filteredIN sample).map keyOf

/-- The assignment `agg[key] = (agg[key] || 0) + q` on the object embedded as
an insertion-ordered association list: an existing key is updated in place, a
new key is appended. -/
def updateAgg : List (String × ℚ) → String → ℚ → List (String × ℚ)
  | [], k, q => [(k, q)]
  | (k0, v0) :: rest, k, q =>
      if k0 = k then (k0, v0 + q) :: rest else (k0, v0) :: updateAgg rest k q

/-- The `for (const s of slotting.sample)` aggregation loop. -/
def aggLoop : List (String × ℚ) → List SlottingMove → List (String × ℚ)
  | acc, [] => acc
  | acc, s :: rest =>
      aggLoop (if inZoneA s then updateAgg acc (keyOf s) (jsNum s.move_qty) else acc) rest

/-- Stable ascending insertion by array-index numeric value. -/
def insIdxAsc (e : String × ℚ) : List (String × ℚ) → List (String × ℚ)
  | [] => [e]
  | f :: rest =>
      if natOfDigits f.1.data < natOfDigits e.1.data then f :: insIdxAsc e rest
      else e :: f :: rest

/-- Stable ascending sort by array-index numeric value. -/
def sortIdxAsc : List (String × ℚ) → List (String × ℚ)
  | [] => []
  | e :: rest => insIdxAsc e (sortIdxAsc rest)

/-- `Object.entries`: canonical array-index keys first in ascending numeric
order, then the remaining keys in insertion order. -/
def jsEntries (l : List (String × ℚ)) : List (String × ℚ) :=
  sortIdxAsc (l.filter (fun p => isArrayIndex p.1)) ++
    l.filter (fun p => !isArrayIndex p.1)

/-- Stable insertion of an entry into a list sorted descending by quantity:
the new entry goes after every earlier entry of greater-or-equal quantity. -/
def insDescQty (e : String × ℚ) : List (String × ℚ) → List (String × ℚ)
  | [] => [e]
  | f :: rest => if e.2 < f.2 then f :: insDescQty e rest else e :: f :: rest

/-- The stable sort `.sort((a, b) => b.qty - a.qty)`: descending by quantity,
entries of equal quantity keeping their relative order. -/
def sortDescQty : List (String × ℚ) → List (String × ℚ)
  | [] => []
  | e :: rest => insDescQty e (sortDescQty rest)

/-- `top5IN`: aggregate the filtered moves by product reference, enumerate
the object's entries, sort descending by quantity, keep the first five. -/
def top5IN (sample : List SlottingMove) : List (String × ℚ) :=
  (sortDescQty (jsEntries (aggLoop [] sample))).take 5

/-- Index of the first occurrence of a key in a key list (length of the list
when absent). -/
def firstIdx : List String → String → ℕ
  | [], _ => 0
  | a :: rest, k => if a = k then 0 else firstIdx rest k + 1

/-! ## Storage map items and the spatial projection (`svgPoints`)

Embedding of the `MapItem` records and of the `svgPoints` memo in
`TransportDashboard.tsx`: strategy 1 uses Cartesian `x`/`y` when at least two
items carry both, strategy 2 uses `lat`/`lon` likewise, and otherwise a
10-column grid renders every item.  `W = 800`, `H = 240`, `pad = 16`.
-/

/-- A storage-map item.  `occupancy_pct` is read through the defensive
`d.occupancy_pct || 0`, so it is embedded as optional. -/
structure MapItem where
  support_label : Option String
  x : Option ℚ
  y : Option ℚ
  z : Option ℚ
  norm : Option ℚ
  lat : Option ℚ
  lon : Option ℚ
  n_locations : ℚ
  on_hand : ℚ
  capacity : ℚ
  occupancy_pct : Option ℚ
  deriving DecidableEq

/-- An exact RGB triple, the value denoted by the string `rgb(r,g,b)`. -/
structure Rgb where
  r : ℤ
  g : ℤ
  b : ℤ
  deriving DecidableEq

/-- `Math.round`: round half toward positive infinity. -/
def jsRound (q : ℚ) : ℤ :=
  ⌊q + 1 / 2⌋

/-- `colorForOccupancy`: clamp the ratio to `[0,1]`, then linearly
interpolate each channel from `rgb(16,185,129)` to `rgb(239,68,68)` and round
it with `Math.round`. -/
def colorForOccupancy (p : ℚ) : Rgb :=
  let t := max 0 (min 1 p)
  { r := jsRound (16 + ((239 : ℚ) - 16) * t),
    g := jsRound (185 + ((68 : ℚ) - 185) * t),
    b := jsRound (129 + ((68 : ℚ) - 129) * t) }

/-- The point radius `4 + Math.min(12, Math.max(0, d.n_locations / 50))`. -/
def radiusOf (n : ℚ) : ℚ :=
  4 + min 12 (max 0 (n / 50))

/-- The clamped occupancy `Math.max(0, Math.min(1, d.occupancy_pct || 0))`. -/
def occOf (d : MapItem) : ℚ :=
  max 0 (min 1 (jsNum d.occupancy_pct))

/-- `typeof d.x === "number" && typeof d.y === "number"`. -/
def hasXY (d : MapItem) : Bool :=
  d.x.isSome && d.y.isSome

/-- `typeof d.lat === "number" && typeof d.lon === "number"`. -/
def hasLL (d : MapItem) : Bool :=
  d.lat.isSome && d.lon.isSome

/-- `Math.min(...)` over a list (only applied to nonempty lists). -/
def listMin : List ℚ → ℚ
  | [] => 0
  | a :: rest => rest.foldl min a

/-- `Math.max(...)` over a list (only applied to nonempty lists). -/
def listMax : List ℚ → ℚ
  | [] => 0
  | a :: rest => rest.foldl max a

/-- The JS span expression `(hi - lo) || 1`: a zero span is replaced by 1. -/
def spanOr1 (lo hi : ℚ) : ℚ :=
  if hi - lo = 0 then 1 else hi - lo

/-- `Array.prototype.map` with the element index, as `(d, i) => ...`. -/
def mapWithIdx {α β : Type*} (f : ℕ → α → β) : ℕ → List α → List β
  | _, [] => []
  | i, a :: rest => f i a :: mapWithIdx f (i + 1) rest

/-- The `x` coordinates of the items that carry both `x` and `y`. -/
def xsOf (items : List MapItem) : List ℚ :=
  (items.filter hasXY).map (fun d => d.x.getD 0)

/-- The `y` coordinates of the items that carry both `x` and `y`. -/
def ysOf (items : List MapItem) : List ℚ :=
  (items.filter hasXY).map (fun d => d.y.getD 0)

/-- The latitudes of the items that carry both `lat` and `lon`. -/
def latsOf (items : List MapItem) : List ℚ :=
  (items.filter hasLL).map (fun d => d.lat.getD 0)

/-- The longitudes of the items that carry both `lat` and `lon`. -/
def lonsOf (items : List MapItem) : List ℚ :=
  (items.filter hasLL).map (fun d => d.lon.getD 0)

/-- A projected SVG point (its tooltip string is not modelled). -/
structure SvgPoint where
  key : String
  x : ℚ
  y : ℚ
  r : ℚ
  fill : Rgb
  deriving DecidableEq

/-- The value of the `svgPoints` memo: viewBox dimensions, rendered height
and the projected points. -/
structure SvgResult where
  viewBoxW : ℚ
  viewBoxH : ℚ
  height : ℚ
  points : List SvgPoint
  deriving DecidableEq

/-- The `svgPoints` memo of `TransportDashboard.tsx`: Cartesian projection
when at least two items carry `x`/`y`, geographic projection when at least
two carry `lat`/`lon`, and otherwise a fixed 10-column grid over every item,
whose canvas height grows with the number of rows. -/
def svgPoints (mapItems : List MapItem) : SvgResult :=
  let itemsXY := mapItems.filter hasXY
  let itemsLL := mapItems.filter hasLL
  if 2 ≤ itemsXY.length then
    let minX := listMin (xsOf mapItems)
    let maxX := listMax (xsOf mapItems)
    let minY := listMin (ysOf mapItems)
    let maxY := listMax (ysOf mapItems)
    { viewBoxW := 800, viewBoxH := 240, height := 240,
      points := mapWithIdx (fun i d =>
        { key := (d.support_label.getD "?") ++ "-xy-" ++ toString i,
          x := 16 + ((d.x.getD 0 - minX) / spanOr1 minX maxX) * (800 - 16 * 2),
          y := 16 + (1 - (d.y.getD 0 - minY) / spanOr1 minY maxY) * (240 - 16 * 2),
          r := radiusOf d.n_locations,
          fill := colorForOccupancy (occOf d) }) 0 itemsXY }
  else if 2 ≤ itemsLL.length then
    let minLat := listMin (latsOf mapItems)
    let maxLat := listMax (latsOf mapItems)
    let minLon := listMin (lonsOf mapItems)
    let maxLon := listMax (lonsOf mapItems)
    { viewBoxW := 800, viewBoxH := 240, height := 240,
      points := mapWithIdx (fun i d =>
        { key := (d.support_label.getD "?") ++ "-ll-" ++ toString i,
          x := 16 + ((d.lon.getD 0 - minLon) / spanOr1 minLon maxLon) * (800 - 16 * 2),
          y := 16 + (1 - (d.lat.getD 0 - minLat) / spanOr1 minLat maxLat) * (240 - 16 * 2),
          r := radiusOf d.n_locations,
          fill := colorForOccupancy (occOf d) }) 0 itemsLL }
  else
    let rows : ℕ := (mapItems.length + 10 - 1) / 10
    let hG : ℚ := 16 * 2 + (rows : ℚ) * 40
    { viewBoxW := 16 * 2 + 10 * 72, viewBoxH := hG, height := min 280 hG,
      points := mapWithIdx (fun i d =>
        { key := (d.support_label.getD "?") ++ "-grid-" ++ toString i,
          x := 16 + ((i % 10 : ℕ) : ℚ) * 72 + 72 / 2,
          y := 16 + ((i / 10 : ℕ) : ℚ) * 40 + 40 / 2,
          r := radiusOf d.n_locations,
          fill := colorForOccupancy (occOf d) }) 0 mapItems }

/-! ## Spec-side projection (for the refinement claim)

These definitions follow the words of spec §4.3, to be compared with
`svgPoints`: a linear rescale of the filtered subset's values into the padded
canvas range, with the Y axis inverted (canvas y measured down from the
bottom padded edge), and the grid fallback laying out every input point
row-major over 10 columns. -/

/-- Spec §4.3: linear rescale of `v` from the domain `[lo, hi]` of the
filtered subset into `[pad, pad + extent]`, the degenerate domain treated as
span 1. -/
def specRescale (pad extent lo hi v : ℚ) : ℚ :=
  pad + ((v - lo) / spanOr1 lo hi) * extent

/-- Spec §4.3 strategy 1: rescale exactly the points carrying both `x` and
`y`; the canvas y is the canvas height minus the rescaled data y (Y axis
inverted). -/
def specCartesianPoints (items : List MapItem) : List SvgPoint :=
  mapWithIdx (fun i d =>
    { key := (d.support_label.getD "?") ++ "-xy-" ++ toString i,
      x := specRescale 16 (800 - 16 * 2) (listMin (xsOf items)) (listMax (xsOf items))
             (d.x.getD 0),
      y := (240 : ℚ) -
             specRescale 16 (240 - 16 * 2) (listMin (ysOf items)) (listMax (ysOf items))
               (d.y.getD 0),
      r := radiusOf d.n_locations,
      fill := colorForOccupancy (occOf d) }) 0 (items.filter hasXY)

/-- Spec §4.3 strategy 2: same rescale over the points carrying both `lat`
and `lon`, with `lon` as x and `lat` as y, Y inverted. -/
def specGeoPoints (items : List MapItem) : List SvgPoint :=
  mapWithIdx (fun i d =>
    { key := (d.support_label.getD "?") ++ "-ll-" ++ toString i,
      x := specRescale 16 (800 - 16 * 2) (listMin (lonsOf items)) (listMax (lonsOf items))
             (d.lon.getD 0),
      y := (240 : ℚ) -
             specRescale 16 (240 - 16 * 2) (listMin (latsOf items)) (listMax (latsOf items))
               (d.lat.getD 0),
      r := radiusOf d.n_locations,
      fill := colorForOccupancy (occOf d) }) 0 (items.filter hasLL)

/-- Spec §4.3 strategy 3: deterministic grid over every input point, 10
columns, row-major in input order, fixed cell size 72 by 40. -/
def specGridPoints (items : List MapItem) : List SvgPoint :=
  mapWithIdx (fun i d =>
    { key := (d.support_label.getD "?") ++ "-grid-" ++ toString i,
      x := 16 + ((i % 10 : ℕ) : ℚ) * 72 + 72 / 2,
      y := 16 + ((i / 10 : ℕ) : ℚ) * 40 + 40 / 2,
      r := radiusOf d.n_locations,
      fill := colorForOccupancy (occOf d) }) 0 items

/-- Spec §4.3: the projection strategy selected in priority order. -/
def specProject (items : List MapItem) : List SvgPoint :=
  if 2 ≤ (items.filter hasXY).length then specCartesianPoints items
  else if 2 ≤ (items.filter hasLL).length then specGeoPoints items
  else specGridPoints items

/-! ## Carrier recommendation (`CarrierSimpleCard.tsx`) -/

/-- A recommendation candidate as returned in the `topK` field of the
carrier-recommendation response. -/
structure RecoItem where
  carrier : String
  service_level : String
  on_time_rate : ℚ
  cp_cost_baseline_eur : ℚ
  capacity_score : ℚ
  p50_eta_h : Option ℚ
  p90_eta_h : Option ℚ
  delay_rate : Option ℚ
  cost_pred : ℚ
  eta_pred_h : ℚ
  risk : ℚ
  score : ℚ
  deriving DecidableEq

/-- Stable ascending insertion by composite score. -/
def insAscScore (e : RecoItem) : List RecoItem → List RecoItem
  | [] => [e]
  | f :: rest => if f.score < e.score then f :: insAscScore e rest else e :: f :: rest

/-- Stable ascending sort by composite score (lower is better). -/
def sortAscScore : List RecoItem → List RecoItem
  | [] => []
  | e :: rest => insAscScore e (sortAscScore rest)

/-- Modelled from the spec: the backend ranking behind `recoSimpleRecommend`
is not part of src/ (the UI only consumes its `topK` field); per spec §4.4 it
sorts the candidate set ascending by the composite `score` (stable tie-break
by original order) and returns the top `k`. -/
def rank (cands : List RecoItem) (k : ℕ) : List RecoItem :=
  (sortAscScore cands).take k

/-- The display-side slice in `onPredict` of `CarrierSimpleCard.tsx`:
`Array.isArray(res?.topK) ? res.topK.slice(0, 3) : []`, a missing or
non-array `topK` yielding the empty list. -/
def onPredictArr (res : Option (List RecoItem)) : List RecoItem :=
  match res with
  | some l => l.take 3
  | none => []

/-! ## Concrete inputs used by witnesses and counterexamples -/

/-- A move of quantity `q` of product `r` into zone `z`. -/
def mv (r z : String) (q : ℚ) : SlottingMove :=
  ⟨some r, none, some z, some q⟩

/-- A storage-map item with the given optional coordinates. -/
def demoItem (xv yv la lo : Option ℚ) : MapItem :=
  ⟨none, xv, yv, none, none, la, lo, 0, 0, 0, none⟩

/-- Two items carrying Cartesian coordinates. -/
def exXY : List MapItem :=
  [demoItem (some 1) (some 2) none none, demoItem (some 3) (some 4) none none]

/-- Two items carrying geographic coordinates only. -/
def exLL : List MapItem :=
  [demoItem none none (some 1) (some 2), demoItem none none (some 3) (some 4)]

/-- Two items with identical Cartesian coordinates: a degenerate domain. -/
def exDegXY : List MapItem :=
  [demoItem (some 5) (some 7) none none, demoItem (some 5) (some 7) none none]

/-- Two items with identical geographic coordinates: a degenerate domain. -/
def exDegLL : List MapItem :=
  [demoItem none none (some 5) (some 7), demoItem none none (some 5) (some 7)]

/-! ## Lemmas about the stable sorts -/

theorem mem_insDescQty {x e : String × ℚ} {l : List (String × ℚ)} :
    x ∈ insDescQty e l ↔ x = e ∨ x ∈ l := by
  induction l with
  | nil => simp [insDescQty]
  | cons f rest ih =>
      simp only [insDescQty]
      by_cases h : e.2 < f.2
      · rw [if_pos h]
        simp only [List.mem_cons, ih]
        tauto
      · rw [if_neg h]
        simp only [List.mem_cons]

theorem insDescQty_perm (e : String × ℚ) (l : List (String × ℚ)) :
    List.Perm (insDescQty e l) (e :: l) := by
  induction l with
  | nil => simp [insDescQty]
  | cons f rest ih =>
      simp only [insDescQty]
      by_cases h : e.2 < f.2
      · rw [if_pos h]
        exact (ih.cons f).trans (List.Perm.swap e f rest)
      · rw [if_neg h]

theorem sortDescQty_perm (l : List (String × ℚ)) :
    List.Perm (sortDescQty l) l := by
  induction l with
  | nil => simp [sortDescQty]
  | cons e rest ih =>
      simp only [sortDescQty]
      exact (insDescQty_perm e (sortDescQty rest)).trans (ih.cons e)

theorem insDescQty_pairwise {Q : String × ℚ → String × ℚ → Prop}
    {l : List (String × ℚ)} {e : String × ℚ}
    (hl : l.Pairwise (fun a b => b.2 < a.2 ∨ (a.2 = b.2 ∧ Q a b)))
    (he : ∀ b ∈ l, Q e b) :
    (insDescQty e l).Pairwise (fun a b => b.2 < a.2 ∨ (a.2 = b.2 ∧ Q a b)) := by
  induction l with
  | nil => simp [insDescQty]
  | cons f rest ih =>
      rcases List.pairwise_cons.mp hl with ⟨hf, hrest⟩
      simp only [insDescQty]
      by_cases h : e.2 < f.2
      · rw [if_pos h]
        refine List.pairwise_cons.mpr
          ⟨?_, ih hrest (fun b hb => he b (List.mem_cons_of_mem f hb))⟩
        intro x hx
        rcases mem_insDescQty.mp hx with rfl | hx'
        · exact Or.inl h
        · exact hf x hx'
      · rw [if_neg h]
        refine List.pairwise_cons.mpr ⟨?_, hl⟩
        intro x hx
        rcases List.mem_cons.mp hx with rfl | hx'
        · have hle : x.2 ≤ e.2 := not_lt.mp h
          rcases lt_or_eq_of_le hle with hlt | heq
          · exact Or.inl hlt
          · exact Or.inr ⟨heq.symm, he x (List.mem_cons_self x rest)⟩
        · rcases hf x hx' with hlt | ⟨heq, _⟩
          · exact Or.inl (lt_of_lt_of_le hlt (not_lt.mp h))
          · have hle : x.2 ≤ e.2 := heq ▸ not_lt.mp h
            rcases lt_or_eq_of_le hle with h2 | h2
            · exact Or.inl h2
            · exact Or.inr ⟨h2.symm, he x (List.mem_cons_of_mem f hx')⟩

theorem sortDescQty_pairwise {Q : String × ℚ → String × ℚ → Prop}
    {l : List (String × ℚ)} (hl : l.Pairwise Q) :
    (sortDescQty l).Pairwise (fun a b => b.2 < a.2 ∨ (a.2 = b.2 ∧ Q a b)) := by
  induction l with
  | nil => simp [sortDescQty]
  | cons e rest ih =>
      rcases List.pairwise_cons.mp hl with ⟨he, hrest⟩
      simp only [sortDescQty]
      exact insDescQty_pairwise (ih hrest)
        (fun b hb => he b ((sortDescQty_perm rest).mem_iff.mp hb))

theorem insIdxAsc_perm (e : String × ℚ) (l : List (String × ℚ)) :
    List.Perm (insIdxAsc e l) (e :: l) := by
  induction l with
  | nil => simp [insIdxAsc]
  | cons f rest ih =>
      simp only [insIdxAsc]
      by_cases h : natOfDigits f.1.data < natOfDigits e.1.data
      · rw [if_pos h]
        exact (ih.cons f).trans (List.Perm.swap e f rest)
      · rw [if_neg h]

theorem sortIdxAsc_perm (l : List (String × ℚ)) :
    List.Perm (sortIdxAsc l) l := by
  induction l with
  | nil => simp [sortIdxAsc]
  | cons e rest ih =>
      simp only [sortIdxAsc]
      exact (insIdxAsc_perm e (sortIdxAsc rest)).trans (ih.cons e)

theorem jsEntries_perm (l : List (String × ℚ)) : List.Perm (jsEntries l) l := by
  unfold jsEntries
  exact ((sortIdxAsc_perm _).append (List.Perm.refl _)).trans
    (List.filter_append_perm _ l)

theorem jsEntries_eq_self {l : List (String × ℚ)}
    (h : ∀ p ∈ l, isArrayIndex p.1 = false) : jsEntries l = l := by
  unfold jsEntries
  have h1 : l.filter (fun p => isArrayIndex p.1) = [] :=
    List.filter_eq_nil_iff.mpr (fun a ha => by simp [h a ha])
  have h2 : l.filter (fun p => !isArrayIndex p.1) = l :=
    List.filter_eq_self.mpr (fun a ha => by simp [h a ha])
  rw [h1, h2]
  simp [sortIdxAsc]

/-! ## Lemmas about `firstIdx` and the key lists -/

theorem firstIdx_lt_length {l : List String} {k : String} (h : k ∈ l) :
    firstIdx l k < l.length := by
  induction l with
  | nil => cases h
  | cons a rest ih =>
      by_cases ha : a = k
      · simp [firstIdx, ha]
      · have hk : k ∈ rest := by
          rcases List.mem_cons.mp h with h1 | h1
          · exact absurd h1.symm ha
          · exact h1
        have := ih hk
        simp only [firstIdx, if_neg ha, List.length_cons]
        omega

theorem firstIdx_append_of_mem {l : List String} {k : String} (h : k ∈ l)
    (m : List String) : firstIdx (l ++ m) k = firstIdx l k := by
  induction l with
  | nil => cases h
  | cons a rest ih =>
      by_cases ha : a = k
      · simp [firstIdx, ha]
      · have hk : k ∈ rest := by
          rcases List.mem_cons.mp h with h1 | h1
          · exact absurd h1.symm ha
          · exact h1
        simp only [List.cons_append, firstIdx, List.append_eq, ih hk]

theorem firstIdx_append_of_not_mem {l : List String} {k : String} (h : k ∉ l)
    (m : List String) : firstIdx (l ++ m) k = l.length + firstIdx m k := by
  induction l with
  | nil => simp [firstIdx]
  | cons a rest ih =>
      have ha : ¬(a = k) := fun hak => h (hak ▸ List.mem_cons_self a rest)
      have hrest : k ∉ rest := fun hk => h (List.mem_cons_of_mem a hk)
      simp only [List.cons_append, firstIdx, List.append_eq, ih hrest, List.length_cons]
      rw [if_neg ha]
      omega

theorem firstIdx_cons_self (k : String) (l : List String) :
    firstIdx (k :: l) k = 0 := by
  simp [firstIdx]

theorem klIN_append (l m : List SlottingMove) :
    klIN (l ++ m) = klIN l ++ klIN m := by
  simp [klIN, filteredIN, List.filter_append]

theorem klIN_cons (s : SlottingMove) (rest : List SlottingMove) :
    klIN (s :: rest) = if inZoneA s then keyOf s :: klIN rest else klIN rest := by
  simp only [klIN, filteredIN, List.filter_cons]
  by_cases h : inZoneA s <;> simp [h]

/-! ## The aggregation loop invariant -/

theorem updateAgg_map_fst (l : List (String × ℚ)) (k : String) (q : ℚ) :
    (updateAgg l k q).map Prod.fst =
      if k ∈ l.map Prod.fst then l.map Prod.fst else l.map Prod.fst ++ [k] := by
  induction l with
  | nil => simp [updateAgg]
  | cons f rest ih =>
      obtain ⟨k0, v0⟩ := f
      by_cases h : k0 = k
      · subst h
        simp [updateAgg]
      · simp only [updateAgg, if_neg h, List.map_cons]
        rw [ih]
        by_cases hk : k ∈ rest.map Prod.fst
        · rw [if_pos hk, if_pos]
          exact List.mem_cons_of_mem _ hk
        · rw [if_neg hk, if_neg]
          · rfl
          · intro hmem
            rcases List.mem_cons.mp hmem with h1 | h1
            · exact h h1.symm
            · exact hk h1

theorem aggLoop_invariant (full : List SlottingMove) (rest : List SlottingMove) :
    ∀ done acc, full = done ++ rest →
      (∀ a, a ∈ acc.map Prod.fst ↔ a ∈ klIN done) →
      (acc.map Prod.fst).Pairwise
        (fun a b => firstIdx (klIN full) a < firstIdx (klIN full) b) →
      (∀ a, a ∈ (aggLoop acc rest).map Prod.fst ↔ a ∈ klIN full) ∧
        ((aggLoop acc rest).map Prod.fst).Pairwise
          (fun a b => firstIdx (klIN full) a < firstIdx (klIN full) b) := by
  induction rest with
  | nil =>
      intro done acc hfull hmem hpw
      have hd : done = full := by rw [hfull, List.append_nil]
      subst hd
      simp only [aggLoop]
      exact ⟨hmem, hpw⟩
  | cons s rest ih =>
      intro done acc hfull hmem hpw
      have hdone : full = (done ++ [s]) ++ rest := by
        rw [List.append_assoc, List.singleton_append]
        exact hfull
      simp only [aggLoop]
      by_cases hz : inZoneA s
      · rw [if_pos hz]
        have hklsnoc : klIN (done ++ [s]) = klIN done ++ [keyOf s] := by
          rw [klIN_append]
          congr 1
          rw [klIN_cons, if_pos hz]
          rfl
        have hmem' : ∀ a,
            a ∈ (updateAgg acc (keyOf s) (jsNum s.move_qty)).map Prod.fst ↔
              a ∈ klIN (done ++ [s]) := by
          intro a
          rw [updateAgg_map_fst, hklsnoc]
          by_cases hkin : keyOf s ∈ acc.map Prod.fst
          · rw [if_pos hkin]
            constructor
            · intro hmem2
              exact List.mem_append_left _ ((hmem a).mp hmem2)
            · intro hmem2
              rcases List.mem_append.mp hmem2 with h1 | h1
              · exact (hmem a).mpr h1
              · have ha : a = keyOf s := by simpa using h1
                subst ha
                exact hkin
          · rw [if_neg hkin]
            simp only [List.mem_append, List.mem_singleton, hmem a]
        have hpw' : ((updateAgg acc (keyOf s) (jsNum s.move_qty)).map Prod.fst).Pairwise
            (fun a b => firstIdx (klIN full) a < firstIdx (klIN full) b) := by
          rw [updateAgg_map_fst]
          by_cases hkin : keyOf s ∈ acc.map Prod.fst
          · rw [if_pos hkin]
            exact hpw
          · rw [if_neg hkin]
            refine List.pairwise_append.mpr ⟨hpw, List.pairwise_singleton _ _, ?_⟩
            intro a ha b hb
            have hb' : b = keyOf s := by simpa using hb
            subst hb'
            have hadone : a ∈ klIN done := (hmem a).mp ha
            have hknotdone : keyOf s ∉ klIN done :=
              fun hmem2 => hkin ((hmem (keyOf s)).mpr hmem2)
            have hfullkl : klIN full = klIN done ++ (keyOf s :: klIN rest) := by
              rw [hfull, klIN_append, klIN_cons, if_pos hz]
            rw [hfullkl, firstIdx_append_of_mem hadone,
              firstIdx_append_of_not_mem hknotdone]
            have h1 : firstIdx (klIN done) a < (klIN done).length :=
              firstIdx_lt_length hadone
            have h2 : firstIdx (keyOf s :: klIN rest) (keyOf s) = 0 :=
              firstIdx_cons_self (keyOf s) _
            omega
        exact ih (done ++ [s]) _ hdone hmem' hpw'
      · rw [if_neg hz]
        have hkl : klIN (done ++ [s]) = klIN done := by
          rw [klIN_append, klIN_cons, if_neg hz]
          simp [klIN, filteredIN]
        exact ih (done ++ [s]) acc hdone
          (by intro a; rw [hkl]; exact hmem a) hpw

theorem aggLoop_keys_mem (sample : List SlottingMove) (a : String) :
    a ∈ (aggLoop [] sample).map Prod.fst ↔ a ∈ klIN sample :=
  ((aggLoop_invariant sample sample [] []
      (List.nil_append sample).symm (fun _ => Iff.rfl) (by simp)).1) a

theorem aggLoop_keys_pairwise (sample : List SlottingMove) :
    ((aggLoop [] sample).map Prod.fst).Pairwise
      (fun a b => firstIdx (klIN sample) a < firstIdx (klIN sample) b) :=
  (aggLoop_invariant sample sample [] []
      (List.nil_append sample).symm (fun _ => Iff.rfl) (by simp)).2

/-! ## Claim theorems: the Top-5 IN aggregation -/

/-- C1 (amended): for every move list whose filtered keys are not canonical
array-index strings, `top5IN` is sorted descending by summed quantity with
ties resolved by the first-seen order of the key in the filtered input.  The
restriction is forced by `Object.entries`, which enumerates array-index keys
first in ascending numeric order, ahead of insertion order. -/
theorem top5IN_sorted_ties_first_seen (sample : List SlottingMove)
    (h : ∀ k ∈ klIN sample, isArrayIndex k = false) :
    (top5IN sample).Pairwise (fun a b =>
      b.2 < a.2 ∨ (a.2 = b.2 ∧
        firstIdx (klIN sample) a.1 < firstIdx (klIN sample) b.1)) := by
  have hidx : ∀ p ∈ aggLoop [] sample, isArrayIndex p.1 = false := by
    intro p hp
    exact h p.1 ((aggLoop_keys_mem sample p.1).mp (List.mem_map_of_mem Prod.fst hp))
  have hent : jsEntries (aggLoop [] sample) = aggLoop [] sample :=
    jsEntries_eq_self hidx
  have hpw : (aggLoop [] sample).Pairwise
      (fun e1 e2 => firstIdx (klIN sample) e1.1 < firstIdx (klIN sample) e2.1) := by
    have hmapped := aggLoop_keys_pairwise sample
    rw [List.pairwise_map] at hmapped
    exact hmapped
  have hsorted := sortDescQty_pairwise hpw
  have htop : top5IN sample = (sortDescQty (aggLoop [] sample)).take 5 := by
    simp only [top5IN, hent]
  rw [htop]
  exact List.Pairwise.sublist (List.take_sublist 5 _) hsorted

/-- Witness for C1's theorem on a concrete sample with alphabetic keys. -/
theorem top5IN_sorted_ties_first_seen_witness :
    (∀ k ∈ klIN [mv "A" "A" 10, mv "B" "A" 15], isArrayIndex k = false) ∧
    (top5IN [mv "A" "A" 10, mv "B" "A" 15]).Pairwise (fun a b =>
      b.2 < a.2 ∨ (a.2 = b.2 ∧
        firstIdx (klIN [mv "A" "A" 10, mv "B" "A" 15]) a.1 <
          firstIdx (klIN [mv "A" "A" 10, mv "B" "A" 15]) b.1)) :=
  ⟨by decide, top5IN_sorted_ties_first_seen _ (by decide)⟩

/-- C1 counterexample: with the array-index product references "1" and "0"
(inserted in that order, equal quantities), `Object.entries` enumerates "0"
before "1", so the tie is not resolved by first-seen order. -/
theorem top5IN_first_seen_counterexample :
    ¬ (top5IN [mv "1" "A" 5, mv "0" "A" 5]).Pairwise (fun a b =>
      b.2 < a.2 ∨ (a.2 = b.2 ∧
        firstIdx (klIN [mv "1" "A" 5, mv "0" "A" 5]) a.1 <
          firstIdx (klIN [mv "1" "A" 5, mv "0" "A" 5]) b.1)) := by
  decide

/-- C3: the spec's concrete scenario: moves A(10), B(15), A(5) into zone "A"
aggregate to A=15, B=15, with A first because it was seen first. -/
theorem top5IN_scenario_tie :
    top5IN [⟨some "A", some "B", some "A", some 10⟩,
      ⟨some "B", some "C", some "A", some 15⟩,
      ⟨some "A", some "D", some "A", some 5⟩] = [("A", 15), ("B", 15)] := by
  norm_num +decide [top5IN, aggLoop, updateAgg, inZoneA, keyOf, jsOr, jsNum, upper,
    jsEntries, isArrayIndex, natOfDigits, sortIdxAsc, insIdxAsc, sortDescQty, insDescQty]

/-- C2: `top5IN` returns at most five entries, every returned key comes from
a move of the filtered input, and when fewer than five distinct keys exist,
every filtered key is returned (no padding). -/
theorem top5IN_at_most_five_and_grounded (sample : List SlottingMove) :
    (top5IN sample).length ≤ 5 ∧
    (∀ e ∈ top5IN sample, e.1 ∈ klIN sample) ∧
    ((klIN sample).toFinset.card < 5 →
      ∀ k ∈ klIN sample, k ∈ (top5IN sample).map Prod.fst) := by
  refine ⟨?_, ?_, ?_⟩
  · simp only [top5IN, List.length_take]
    exact inf_le_left
  · intro e he
    have he1 : e ∈ (sortDescQty (jsEntries (aggLoop [] sample))).take 5 := he
    have h1 : e ∈ sortDescQty (jsEntries (aggLoop [] sample)) :=
      List.take_subset 5 _ he1
    have h2 : e ∈ aggLoop [] sample :=
      (jsEntries_perm _).mem_iff.mp ((sortDescQty_perm _).mem_iff.mp h1)
    exact (aggLoop_keys_mem sample e.1).mp (List.mem_map_of_mem Prod.fst h2)
  · intro hcard k hk
    have hpwkeys := aggLoop_keys_pairwise sample
    have hnd : ((aggLoop [] sample).map Prod.fst).Nodup :=
      hpwkeys.imp (fun h heq => by subst heq; exact absurd h (lt_irrefl _))
    have hfs : ((aggLoop [] sample).map Prod.fst).toFinset = (klIN sample).toFinset := by
      ext a
      simp only [List.mem_toFinset]
      exact aggLoop_keys_mem sample a
    have hlen : ((aggLoop [] sample).map Prod.fst).length = (klIN sample).toFinset.card := by
      rw [← List.toFinset_card_of_nodup hnd, hfs]
    have hlen2 : (aggLoop [] sample).length < 5 := by
      rw [List.length_map] at hlen
      omega
    have hlen3 : (sortDescQty (jsEntries (aggLoop [] sample))).length < 5 := by
      rw [(sortDescQty_perm _).length_eq, (jsEntries_perm _).length_eq]
      exact hlen2
    have htake : top5IN sample = sortDescQty (jsEntries (aggLoop [] sample)) := by
      simp only [top5IN]
      exact List.take_of_length_le (le_of_lt hlen3)
    have hk2 : k ∈ (aggLoop [] sample).map Prod.fst := (aggLoop_keys_mem sample k).mpr hk
    rcases List.mem_map.mp hk2 with ⟨e, he, hek⟩
    have he2 : e ∈ sortDescQty (jsEntries (aggLoop [] sample)) :=
      (sortDescQty_perm _).mem_iff.mpr ((jsEntries_perm _).mem_iff.mpr he)
    rw [htake]
    exact hek ▸ List.mem_map_of_mem Prod.fst he2

/-- Witness for C2's theorem on a one-move sample. -/
theorem top5IN_at_most_five_and_grounded_witness :
    (("A", (3 : ℚ)) ∈ top5IN [mv "A" "A" 3] ∧
      ("A", (3 : ℚ)).1 ∈ klIN [mv "A" "A" 3]) ∧
    ((klIN [mv "A" "A" 3]).toFinset.card < 5 ∧ "A" ∈ klIN [mv "A" "A" 3] ∧
      "A" ∈ (top5IN [mv "A" "A" 3]).map Prod.fst) :=
  ⟨⟨by decide, (top5IN_at_most_five_and_grounded [mv "A" "A" 3]).2.1 ("A", 3) (by decide)⟩,
   ⟨by decide, by decide,
     (top5IN_at_most_five_and_grounded [mv "A" "A" 3]).2.2 (by decide) "A" (by decide)⟩⟩

/-- C9: the aggregation degrades gracefully on malformed records: a missing
product reference falls into the sentinel key "?", a missing quantity is
treated as 0, and the key of every filtered move forms a group that is
present in the aggregate (never dropped); all functions involved are total,
so no exception can be raised. -/
theorem aggregation_handles_malformed (sample : List SlottingMove) :
    (∀ s : SlottingMove, s.referenceproduit = none → keyOf s = "?") ∧
    (∀ s : SlottingMove, s.move_qty = none → jsNum s.move_qty = 0) ∧
    (∀ s ∈ filteredIN sample, keyOf s ∈ (aggLoop [] sample).map Prod.fst) := by
  refine ⟨?_, ?_, ?_⟩
  · intro s h
    simp [keyOf, jsOr, h]
  · intro s h
    simp [jsNum, h]
  · intro s hs
    exact (aggLoop_keys_mem sample (keyOf s)).mpr (List.mem_map_of_mem keyOf hs)

/-- Witness for C9's theorem on a move with no reference and no quantity. -/
theorem aggregation_handles_malformed_witness :
    keyOf ⟨none, none, some "a", none⟩ = "?" ∧
    jsNum (SlottingMove.mk none none (some "a") none).move_qty = 0 ∧
    (⟨none, none, some "a", none⟩ : SlottingMove) ∈
      filteredIN [⟨none, none, some "a", none⟩] ∧
    keyOf ⟨none, none, some "a", none⟩ ∈
      (aggLoop [] [(⟨none, none, some "a", none⟩ : SlottingMove)]).map Prod.fst :=
  ⟨(aggregation_handles_malformed []).1 _ rfl,
   (aggregation_handles_malformed []).2.1 _ rfl,
   by decide,
   (aggregation_handles_malformed [⟨none, none, some "a", none⟩]).2.2 _ (by decide)⟩

/-! ## Lemmas about `mapWithIdx` and list extrema -/

theorem length_mapWithIdx {α β : Type*} (f : ℕ → α → β) (i : ℕ) (l : List α) :
    (mapWithIdx f i l).length = l.length := by
  induction l generalizing i with
  | nil => rfl
  | cons a rest ih => simp [mapWithIdx, ih]

theorem map_mapWithIdx {α β γ : Type*} (g : β → γ) (f : ℕ → α → β) (i : ℕ)
    (l : List α) :
    (mapWithIdx f i l).map g = mapWithIdx (fun j a => g (f j a)) i l := by
  induction l generalizing i with
  | nil => rfl
  | cons a rest ih => simp [mapWithIdx, ih]

theorem mapWithIdx_congr {α β : Type*} {f g : ℕ → α → β} {l : List α}
    (h : ∀ i a, a ∈ l → f i a = g i a) :
    ∀ i, mapWithIdx f i l = mapWithIdx g i l := by
  induction l with
  | nil => intro i; rfl
  | cons a rest ih =>
      intro i
      simp only [mapWithIdx]
      rw [h i a (List.mem_cons_self a rest),
        ih (fun j b hb => h j b (List.mem_cons_of_mem a hb)) (i + 1)]

theorem mem_mapWithIdx {α β : Type*} {f : ℕ → α → β} {p : β} :
    ∀ {i : ℕ} {l : List α}, p ∈ mapWithIdx f i l → ∃ j a, a ∈ l ∧ p = f j a := by
  intro i l
  induction l generalizing i with
  | nil => intro h; cases h
  | cons a rest ih =>
      intro h
      rcases List.mem_cons.mp h with h1 | h1
      · exact ⟨i, a, List.mem_cons_self a rest, h1⟩
      · rcases ih h1 with ⟨j, b, hb, hp⟩
        exact ⟨j, b, List.mem_cons_of_mem a hb, hp⟩

theorem foldl_min_le (l : List ℚ) : ∀ a : ℚ, l.foldl min a ≤ a := by
  induction l with
  | nil => intro a; exact le_refl a
  | cons b rest ih =>
      intro a
      calc rest.foldl min (min a b) ≤ min a b := ih (min a b)
        _ ≤ a := min_le_left a b

theorem foldl_min_le_mem (l : List ℚ) :
    ∀ (a x : ℚ), x ∈ l → l.foldl min a ≤ x := by
  induction l with
  | nil => intro a x hx; cases hx
  | cons b rest ih =>
      intro a x hx
      rcases List.mem_cons.mp hx with rfl | hx'
      · calc rest.foldl min (min a x) ≤ min a x := foldl_min_le rest (min a x)
          _ ≤ x := min_le_right a x
      · exact ih (min a b) x hx'

theorem listMin_le_of_mem {l : List ℚ} {x : ℚ} (h : x ∈ l) : listMin l ≤ x := by
  cases l with
  | nil => cases h
  | cons a rest =>
      rcases List.mem_cons.mp h with rfl | hx
      · exact foldl_min_le rest x
      · exact foldl_min_le_mem rest a x hx

theorem le_foldl_max (l : List ℚ) : ∀ a : ℚ, a ≤ l.foldl max a := by
  induction l with
  | nil => intro a; exact le_refl a
  | cons b rest ih =>
      intro a
      calc a ≤ max a b := le_max_left a b
        _ ≤ rest.foldl max (max a b) := ih (max a b)

theorem le_foldl_max_mem (l : List ℚ) :
    ∀ (a x : ℚ), x ∈ l → x ≤ l.foldl max a := by
  induction l with
  | nil => intro a x hx; cases hx
  | cons b rest ih =>
      intro a x hx
      rcases List.mem_cons.mp hx with rfl | hx'
      · calc x ≤ max a x := le_max_right a x
          _ ≤ rest.foldl max (max a x) := le_foldl_max rest (max a x)
      · exact ih (max a b) x hx'

theorem le_listMax_of_mem {l : List ℚ} {x : ℚ} (h : x ∈ l) : x ≤ listMax l := by
  cases l with
  | nil => cases h
  | cons a rest =>
      rcases List.mem_cons.mp h with rfl | hx
      · exact le_foldl_max rest x
      · exact le_foldl_max_mem rest a x hx

theorem eq_listMin_of_min_eq_max {l : List ℚ} {x : ℚ}
    (h : listMin l = listMax l) (hx : x ∈ l) : x = listMin l :=
  le_antisymm (by rw [h]; exact le_listMax_of_mem hx) (listMin_le_of_mem hx)

/-! ## Branch equations for `svgPoints` -/

theorem svgPoints_points_xy {items : List MapItem}
    (h : 2 ≤ (items.filter hasXY).length) :
    (svgPoints items).points = mapWithIdx (fun i d =>
      ({ key := (d.support_label.getD "?") ++ "-xy-" ++ toString i,
         x := 16 + ((d.x.getD 0 - listMin (xsOf items)) /
               spanOr1 (listMin (xsOf items)) (listMax (xsOf items))) * (800 - 16 * 2),
         y := 16 + (1 - (d.y.getD 0 - listMin (ysOf items)) /
               spanOr1 (listMin (ysOf items)) (listMax (ysOf items))) * (240 - 16 * 2),
         r := radiusOf d.n_locations,
         fill := colorForOccupancy (occOf d) } : SvgPoint)) 0 (items.filter hasXY) := by
  simp only [svgPoints]
  rw [if_pos h]

theorem svgPoints_points_ll {items : List MapItem}
    (hxy : ¬ 2 ≤ (items.filter hasXY).length)
    (hll : 2 ≤ (items.filter hasLL).length) :
    (svgPoints items).points = mapWithIdx (fun i d =>
      ({ key := (d.support_label.getD "?") ++ "-ll-" ++ toString i,
         x := 16 + ((d.lon.getD 0 - listMin (lonsOf items)) /
               spanOr1 (listMin (lonsOf items)) (listMax (lonsOf items))) * (800 - 16 * 2),
         y := 16 + (1 - (d.lat.getD 0 - listMin (latsOf items)) /
               spanOr1 (listMin (latsOf items)) (listMax (latsOf items))) * (240 - 16 * 2),
         r := radiusOf d.n_locations,
         fill := colorForOccupancy (occOf d) } : SvgPoint)) 0 (items.filter hasLL) := by
  simp only [svgPoints]
  rw [if_neg hxy, if_pos hll]

theorem svgPoints_grid {items : List MapItem}
    (hxy : ¬ 2 ≤ (items.filter hasXY).length)
    (hll : ¬ 2 ≤ (items.filter hasLL).length) :
    svgPoints items =
      { viewBoxW := 16 * 2 + 10 * 72,
        viewBoxH := 16 * 2 + (((items.length + 10 - 1) / 10 : ℕ) : ℚ) * 40,
        height := min 280 (16 * 2 + (((items.length + 10 - 1) / 10 : ℕ) : ℚ) * 40),
        points := mapWithIdx (fun i d =>
          ({ key := (d.support_label.getD "?") ++ "-grid-" ++ toString i,
             x := 16 + ((i % 10 : ℕ) : ℚ) * 72 + 72 / 2,
             y := 16 + ((i / 10 : ℕ) : ℚ) * 40 + 40 / 2,
             r := radiusOf d.n_locations,
             fill := colorForOccupancy (occOf d) } : SvgPoint)) 0 items } := by
  simp only [svgPoints]
  rw [if_neg hxy, if_neg hll]

theorem points_eq_specCartesian {items : List MapItem}
    (h : 2 ≤ (items.filter hasXY).length) :
    (svgPoints items).points = specCartesianPoints items := by
  rw [svgPoints_points_xy h]
  unfold specCartesianPoints
  refine mapWithIdx_congr (fun i d _ => ?_) 0
  simp only [SvgPoint.mk.injEq, specRescale, true_and, and_true]
  ring

theorem points_eq_specGeo {items : List MapItem}
    (hxy : ¬ 2 ≤ (items.filter hasXY).length)
    (hll : 2 ≤ (items.filter hasLL).length) :
    (svgPoints items).points = specGeoPoints items := by
  rw [svgPoints_points_ll hxy hll]
  unfold specGeoPoints
  refine mapWithIdx_congr (fun i d _ => ?_) 0
  simp only [SvgPoint.mk.injEq, specRescale, true_and, and_true]
  ring

theorem points_eq_specGrid {items : List MapItem}
    (hxy : ¬ 2 ≤ (items.filter hasXY).length)
    (hll : ¬ 2 ≤ (items.filter hasLL).length) :
    (svgPoints items).points = specGridPoints items := by
  rw [svgPoints_grid hxy hll]
  rfl

/-! ## Claim theorems: the spatial projection -/

/-- C4: the projection selects its strategy in priority order: with at least
two Cartesian-complete points it rescales exactly those into the padded
canvas with the filtered subset as domain and the Y axis inverted; otherwise
with at least two geographic-complete points it does the same with lon as x
and lat as y; otherwise it lays every input point on a 10-column row-major
grid whose canvas height grows with the row count.  `specProject` follows the
words of spec section 4.3. -/
theorem svgPoints_strategy_priority (items : List MapItem) :
    (2 ≤ (items.filter hasXY).length →
      (svgPoints items).points = specCartesianPoints items) ∧
    ((items.filter hasXY).length < 2 → 2 ≤ (items.filter hasLL).length →
      (svgPoints items).points = specGeoPoints items) ∧
    ((items.filter hasXY).length < 2 → (items.filter hasLL).length < 2 →
      (svgPoints items).points = specGridPoints items ∧
      (svgPoints items).viewBoxW = 16 * 2 + 10 * 72 ∧
      (svgPoints items).viewBoxH =
        16 * 2 + (((items.length + 10 - 1) / 10 : ℕ) : ℚ) * 40) ∧
    (svgPoints items).points = specProject items := by
  refine ⟨fun h => points_eq_specCartesian h, ?_, ?_, ?_⟩
  · intro hxy hll
    exact points_eq_specGeo (not_le.mpr hxy) hll
  · intro hxy hll
    have hgrid := svgPoints_grid (not_le.mpr hxy) (not_le.mpr hll)
    refine ⟨points_eq_specGrid (not_le.mpr hxy) (not_le.mpr hll), ?_, ?_⟩
    · rw [hgrid]
    · rw [hgrid]
  · unfold specProject
    by_cases hxy : 2 ≤ (items.filter hasXY).length
    · rw [if_pos hxy]
      exact points_eq_specCartesian hxy
    · rw [if_neg hxy]
      by_cases hll : 2 ≤ (items.filter hasLL).length
      · rw [if_pos hll]
        exact points_eq_specGeo hxy hll
      · rw [if_neg hll]
        exact points_eq_specGrid hxy hll

/-- Witness for C4's theorem: each strategy exercised on a concrete input. -/
theorem svgPoints_strategy_priority_witness :
    (2 ≤ (exXY.filter hasXY).length ∧
      (svgPoints exXY).points = specCartesianPoints exXY) ∧
    ((exLL.filter hasXY).length < 2 ∧ 2 ≤ (exLL.filter hasLL).length ∧
      (svgPoints exLL).points = specGeoPoints exLL) ∧
    ((([] : List MapItem).filter hasXY).length < 2 ∧
      (([] : List MapItem).filter hasLL).length < 2 ∧
      (svgPoints ([] : List MapItem)).points = specGridPoints []) :=
  ⟨⟨by decide, (svgPoints_strategy_priority exXY).1 (by decide)⟩,
   ⟨by decide, by decide,
     (svgPoints_strategy_priority exLL).2.1 (by decide) (by decide)⟩,
   ⟨by decide, by decide,
     ((svgPoints_strategy_priority []).2.2.1 (by decide) (by decide)).1⟩⟩

/-- C5: the projection never divides by zero: the span it divides by is
`spanOr1`, which is never zero; and on a degenerate axis (min equal to max on
the filtered subset) every projected point sits at the padded origin of that
axis: canvas x `16`, and canvas y `240 - 16` (the bottom padded edge, which
is the data origin under the inverted Y axis).  In this rational embedding
every output value is a well-defined rational, so no NaN or Infinity can
arise. -/
theorem svgPoints_degenerate_domain (items : List MapItem) :
    (∀ lo hi : ℚ, spanOr1 lo hi ≠ 0) ∧
    (2 ≤ (items.filter hasXY).length →
      (listMin (xsOf items) = listMax (xsOf items) →
        ∀ p ∈ (svgPoints items).points, p.x = 16) ∧
      (listMin (ysOf items) = listMax (ysOf items) →
        ∀ p ∈ (svgPoints items).points, p.y = 240 - 16)) ∧
    ((items.filter hasXY).length < 2 → 2 ≤ (items.filter hasLL).length →
      (listMin (lonsOf items) = listMax (lonsOf items) →
        ∀ p ∈ (svgPoints items).points, p.x = 16) ∧
      (listMin (latsOf items) = listMax (latsOf items) →
        ∀ p ∈ (svgPoints items).points, p.y = 240 - 16)) := by
  refine ⟨?_, ?_, ?_⟩
  · intro lo hi
    unfold spanOr1
    by_cases h : hi - lo = 0
    · rw [if_pos h]
      exact one_ne_zero
    · rw [if_neg h]
      exact h
  · intro h2
    constructor
    · intro hdeg p hp
      rw [svgPoints_points_xy h2] at hp
      rcases mem_mapWithIdx hp with ⟨j, d, hd, rfl⟩
      have hxv : d.x.getD 0 = listMin (xsOf items) :=
        eq_listMin_of_min_eq_max hdeg (List.mem_map_of_mem _ hd)
      show 16 + ((d.x.getD 0 - listMin (xsOf items)) / _) * (800 - 16 * 2) = 16
      rw [hxv, sub_self, zero_div, zero_mul, add_zero]
    · intro hdeg p hp
      rw [svgPoints_points_xy h2] at hp
      rcases mem_mapWithIdx hp with ⟨j, d, hd, rfl⟩
      have hyv : d.y.getD 0 = listMin (ysOf items) :=
        eq_listMin_of_min_eq_max hdeg (List.mem_map_of_mem _ hd)
      show 16 + (1 - (d.y.getD 0 - listMin (ysOf items)) / _) * (240 - 16 * 2) =
        240 - 16
      rw [hyv, sub_self, zero_div, sub_zero, one_mul]
      norm_num
  · intro hxy hll
    constructor
    · intro hdeg p hp
      rw [svgPoints_points_ll (not_le.mpr hxy) hll] at hp
      rcases mem_mapWithIdx hp with ⟨j, d, hd, rfl⟩
      have hxv : d.lon.getD 0 = listMin (lonsOf items) :=
        eq_listMin_of_min_eq_max hdeg (List.mem_map_of_mem _ hd)
      show 16 + ((d.lon.getD 0 - listMin (lonsOf items)) / _) * (800 - 16 * 2) = 16
      rw [hxv, sub_self, zero_div, zero_mul, add_zero]
    · intro hdeg p hp
      rw [svgPoints_points_ll (not_le.mpr hxy) hll] at hp
      rcases mem_mapWithIdx hp with ⟨j, d, hd, rfl⟩
      have hyv : d.lat.getD 0 = listMin (latsOf items) :=
        eq_listMin_of_min_eq_max hdeg (List.mem_map_of_mem _ hd)
      show 16 + (1 - (d.lat.getD 0 - listMin (latsOf items)) / _) * (240 - 16 * 2) =
        240 - 16
      rw [hyv, sub_self, zero_div, sub_zero, one_mul]
      norm_num

/-- Witness for C5's theorem: degenerate Cartesian and geographic inputs. -/
theorem svgPoints_degenerate_domain_witness :
    spanOr1 3 3 ≠ 0 ∧
    (2 ≤ (exDegXY.filter hasXY).length ∧
      listMin (xsOf exDegXY) = listMax (xsOf exDegXY) ∧
      (∀ p ∈ (svgPoints exDegXY).points, p.x = 16) ∧
      listMin (ysOf exDegXY) = listMax (ysOf exDegXY) ∧
      (∀ p ∈ (svgPoints exDegXY).points, p.y = 240 - 16)) ∧
    ((exDegLL.filter hasXY).length < 2 ∧ 2 ≤ (exDegLL.filter hasLL).length ∧
      listMin (lonsOf exDegLL) = listMax (lonsOf exDegLL) ∧
      (∀ p ∈ (svgPoints exDegLL).points, p.x = 16) ∧
      listMin (latsOf exDegLL) = listMax (latsOf exDegLL) ∧
      (∀ p ∈ (svgPoints exDegLL).points, p.y = 240 - 16)) :=
  ⟨(svgPoints_degenerate_domain []).1 3 3,
   ⟨by decide, by decide,
    ((svgPoints_degenerate_domain exDegXY).2.1 (by decide)).1 (by decide),
    by decide,
    ((svgPoints_degenerate_domain exDegXY).2.1 (by decide)).2 (by decide)⟩,
   ⟨by decide, by decide, by decide,
    ((svgPoints_degenerate_domain exDegLL).2.2 (by decide) (by decide)).1 (by decide),
    by decide,
    ((svgPoints_degenerate_domain exDegLL).2.2 (by decide) (by decide)).2 (by decide)⟩⟩

/-- C6 counterexample: at ratio one half, the red channel of the rendered
color is 128, which is not the exact arithmetic midpoint 127.5 of the low and
high red channels (Math.round necessarily rounds the half-integer). -/
theorem colorForOccupancy_midpoint_counterexample :
    ((colorForOccupancy (1 / 2)).r : ℚ) ≠ ((16 : ℚ) + 239) / 2 := by
  have h : colorForOccupancy (1 / 2) = ⟨128, 127, 99⟩ := by
    norm_num [colorForOccupancy, jsRound]
  rw [h]
  norm_num

/-- C6 (amended): `colorForOccupancy` is exact at the endpoints and, at one
half, each channel is the Math.round of the channel midpoint (128, 127, 99
rather than 127.5, 126.5, 98.5); the ratio is clamped to the unit interval
before interpolating. -/
theorem colorForOccupancy_endpoints_and_rounded_midpoint :
    colorForOccupancy 0 = ⟨16, 185, 129⟩ ∧
    colorForOccupancy 1 = ⟨239, 68, 68⟩ ∧
    colorForOccupancy (1 / 2) = ⟨128, 127, 99⟩ ∧
    (colorForOccupancy (1 / 2)).r = jsRound (((16 : ℚ) + 239) / 2) ∧
    (colorForOccupancy (1 / 2)).g = jsRound (((185 : ℚ) + 68) / 2) ∧
    (colorForOccupancy (1 / 2)).b = jsRound (((129 : ℚ) + 68) / 2) ∧
    (∀ p : ℚ, colorForOccupancy p = colorForOccupancy (max 0 (min 1 p))) := by
  refine ⟨?_, ?_, ?_, ?_, ?_, ?_, ?_⟩
  · norm_num [colorForOccupancy, jsRound]
  · norm_num [colorForOccupancy, jsRound]
  · norm_num [colorForOccupancy, jsRound]
  · norm_num [colorForOccupancy, jsRound]
  · norm_num [colorForOccupancy, jsRound]
  · norm_num [colorForOccupancy, jsRound]
  · intro p
    have hcl : max 0 (min 1 (max 0 (min 1 p))) = max 0 (min 1 p) := by
      have h0 : (0 : ℚ) ≤ max 0 (min 1 p) := le_max_left _ _
      have h1 : max 0 (min 1 p) ≤ 1 := max_le (by norm_num) (min_le_left _ _)
      rw [min_eq_right h1, max_eq_right h0]
    simp only [colorForOccupancy, hcl]

/-- C7: the projected point radius is `4 + min 12 (max 0 (n / 50))`, it is
monotone non-decreasing in the location count, and it lies in `[4, 16]` for
every non-negative location count (`radiusOf` is the radius used by every
branch of `svgPoints`). -/
theorem radiusOf_monotone_clamped :
    (∀ n : ℚ, radiusOf n = 4 + min 12 (max 0 (n / 50))) ∧
    (∀ n m : ℚ, n ≤ m → radiusOf n ≤ radiusOf m) ∧
    (∀ n : ℚ, 0 ≤ n → 4 ≤ radiusOf n ∧ radiusOf n ≤ 16) := by
  refine ⟨fun n => rfl, ?_, ?_⟩
  · intro n m h
    unfold radiusOf
    gcongr
  · intro n _
    constructor
    · have h1 : (0 : ℚ) ≤ min 12 (max 0 (n / 50)) :=
        le_min (by norm_num) (le_max_left 0 _)
      unfold radiusOf
      linarith
    · have h2 : min 12 (max 0 (n / 50)) ≤ 12 := min_le_left _ _
      unfold radiusOf
      linarith

/-- Witness for C7's theorem at location counts 0 and 100. -/
theorem radiusOf_monotone_clamped_witness :
    ((0 : ℚ) ≤ 100 ∧ radiusOf 0 ≤ radiusOf 100) ∧
    ((0 : ℚ) ≤ 100 ∧ 4 ≤ radiusOf 100 ∧ radiusOf 100 ≤ 16) :=
  ⟨⟨by norm_num, radiusOf_monotone_clamped.2.1 0 100 (by norm_num)⟩,
   ⟨by norm_num, (radiusOf_monotone_clamped.2.2 100 (by norm_num)).1,
    (radiusOf_monotone_clamped.2.2 100 (by norm_num)).2⟩⟩

/-- C10: under the Cartesian strategy the rendered points are exactly the
points carrying both x and y, in input order (keys tagged "-xy-"); under the
geographic strategy exactly those carrying both lat and lon (tagged "-ll-");
points lacking the selected coordinates are omitted entirely.  Only the grid
fallback renders every input point. -/
theorem svgPoints_renders_exactly_selected (items : List MapItem) :
    (2 ≤ (items.filter hasXY).length →
      (svgPoints items).points.length = (items.filter hasXY).length ∧
      (svgPoints items).points.map SvgPoint.key =
        mapWithIdx (fun i d => (d.support_label.getD "?") ++ "-xy-" ++ toString i) 0
          (items.filter hasXY)) ∧
    ((items.filter hasXY).length < 2 → 2 ≤ (items.filter hasLL).length →
      (svgPoints items).points.length = (items.filter hasLL).length ∧
      (svgPoints items).points.map SvgPoint.key =
        mapWithIdx (fun i d => (d.support_label.getD "?") ++ "-ll-" ++ toString i) 0
          (items.filter hasLL)) ∧
    ((items.filter hasXY).length < 2 → (items.filter hasLL).length < 2 →
      (svgPoints items).points.length = items.length ∧
      (svgPoints items).points.map SvgPoint.key =
        mapWithIdx (fun i d => (d.support_label.getD "?") ++ "-grid-" ++ toString i) 0
          items) := by
  refine ⟨?_, ?_, ?_⟩
  · intro h
    rw [svgPoints_points_xy h]
    exact ⟨length_mapWithIdx _ 0 _, by rw [map_mapWithIdx]⟩
  · intro hxy hll
    rw [svgPoints_points_ll (not_le.mpr hxy) hll]
    exact ⟨length_mapWithIdx _ 0 _, by rw [map_mapWithIdx]⟩
  · intro hxy hll
    rw [svgPoints_grid (not_le.mpr hxy) (not_le.mpr hll)]
    exact ⟨length_mapWithIdx _ 0 _, by rw [map_mapWithIdx]⟩

/-- Witness for C10's theorem: each strategy exercised on a concrete input. -/
theorem svgPoints_renders_exactly_selected_witness :
    (2 ≤ (exXY.filter hasXY).length ∧
      (svgPoints exXY).points.length = (exXY.filter hasXY).length) ∧
    ((exLL.filter hasXY).length < 2 ∧ 2 ≤ (exLL.filter hasLL).length ∧
      (svgPoints exLL).points.length = (exLL.filter hasLL).length) ∧
    ((([] : List MapItem).filter hasXY).length < 2 ∧
      (([] : List MapItem).filter hasLL).length < 2 ∧
      (svgPoints ([] : List MapItem)).points.length = ([] : List MapItem).length) :=
  ⟨⟨by decide, ((svgPoints_renders_exactly_selected exXY).1 (by decide)).1⟩,
   ⟨by decide, by decide,
     ((svgPoints_renders_exactly_selected exLL).2.1 (by decide) (by decide)).1⟩,
   ⟨by decide, by decide,
     ((svgPoints_renders_exactly_selected []).2.2 (by decide) (by decide)).1⟩⟩

/-! ## Claim theorems: the carrier recommendation -/

theorem length_insAscScore (e : RecoItem) (l : List RecoItem) :
    (insAscScore e l).length = l.length + 1 := by
  induction l with
  | nil => rfl
  | cons f rest ih =>
      simp only [insAscScore]
      by_cases h : f.score < e.score
      · rw [if_pos h]
        simp [ih]
      · rw [if_neg h]
        simp

theorem length_sortAscScore (l : List RecoItem) :
    (sortAscScore l).length = l.length := by
  induction l with
  | nil => rfl
  | cons e rest ih => simp [sortAscScore, length_insAscScore, ih]

/-- C8: the recommendation ranking returns the top `k` or fewer when the
candidate set is smaller, an empty candidate set yields an empty result
rather than an error, and the displayed list (`onPredict`'s slice of the
response) never exceeds three entries. -/
theorem reco_rank_top_k :
    (∀ (cands : List RecoItem) (k : ℕ), (rank cands k).length = min k cands.length) ∧
    (∀ k : ℕ, rank [] k = []) ∧
    (∀ res : Option (List RecoItem), (onPredictArr res).length ≤ 3) ∧
    (∀ cands : List RecoItem, cands.length ≤ 3 → onPredictArr (some cands) = cands) ∧
    onPredictArr none = [] ∧ onPredictArr (some []) = [] := by
  refine ⟨?_, ?_, ?_, ?_, rfl, rfl⟩
  · intro cands k
    simp [rank, List.length_take, length_sortAscScore]
  · intro k
    simp [rank, sortAscScore]
  · intro res
    cases res with
    | none => simp [onPredictArr]
    | some l =>
        simp only [onPredictArr, List.length_take]
        exact inf_le_left
  · intro cands h
    simp only [onPredictArr]
    exact List.take_of_length_le h

/-- Witness for C8's theorem on the empty candidate list. -/
theorem reco_rank_top_k_witness :
    ([] : List RecoItem).length ≤ 3 ∧ onPredictArr (some ([] : List RecoItem)) = [] :=
  ⟨by decide, reco_rank_top_k.2.2.2.1 [] (by decide)⟩

end Logiops
